import Mathlib

/-!
Verification of the q2-gunc directory-to-table transformer
(`q2_gunc/types/_transformer.py`, function
`gunc_results_directory_format_to_metadata`) against its specification.

The transformer enumerates the partitions of a validated
`GUNCResultsDirectoryFormat` via `file_dict()`, globs each partition's
directory for a `GUNC.*.maxCSS_level.tsv` summary file, loads the first
match as a table, tags partitioned rows with a `sample_id` column,
concatenates everything, and re-indexes the result by the `genome`
column renamed to `id`.

The embedding models a partition as its sample id together with the
directory listing (file names with TSV contents, in glob-iteration
order), and models the pandas operations used by the source
(`read_csv`, column assignment, `concat`, `set_index`) on a small
`DataFrame` type whose cells are `Option String` (`none` plays the
role of NaN).
-/

namespace Q2Gunc

/-- Character-list version of "p is a literal starting segment of s";
used to evaluate the fixed glob pattern without opaque String internals. -/
def chPre : List Char → List Char → Bool
  | [], _ => true
  | _ :: _, [] => false
  | a :: as, b :: bs => a == b && chPre as bs

/-- Does a file name match the glob pattern `GUNC.*.maxCSS_level.tsv`
used by the transformer?  In `glob`, `*` matches any (possibly empty)
run of characters within the name, so a name matches exactly when it is
`"GUNC." ++ s ++ ".maxCSS_level.tsv"` for some `s`, i.e. when it starts
with `GUNC.`, ends with `.maxCSS_level.tsv`, and the two fixed parts do
not overlap (length at least 22). -/
def matchesMaxCSS (name : String) : Bool :=
  let cs := name.toList
  chPre "GUNC.".toList cs &&
  chPre ".maxCSS_level.tsv".toList.reverse cs.reverse &&
  decide (22 ≤ cs.length)

/-- A tab-separated result file: header row of column names, then data
rows of cell values. -/
structure TsvFile where
  header : List String
  data : List (List String)
deriving DecidableEq, Repr

/-- One file in a partition's directory: its name and its TSV content. -/
structure DirEntry where
  name : String
  content : TsvFile
deriving DecidableEq, Repr

/-- One entry of `file_dict()`: the sample id (empty string for the
unpartitioned case) and the directory listing of the corresponding
path, in the order `glob` iterates it. -/
structure Partition where
  sampleId : String
  files : List DirEntry
deriving DecidableEq, Repr

/-- `glob.glob(os.path.join(directory, "GUNC.*.maxCSS_level.tsv"))`:
the files of the directory whose names match the pattern, in listing
order. -/
def globMaxCSS (files : List DirEntry) : List DirEntry :=
  files.filter (fun f => matchesMaxCSS f.name)

/-- A pandas DataFrame as the transformer uses it: named columns and
rows of cells; a `none` cell is NaN. -/
structure DataFrame where
  cols : List String
  rows : List (List (Option String))
deriving DecidableEq, Repr

/-- `pd.read_csv(maxcss_file, sep='\t')`: columns from the header, one
row per data row. -/
def readCsv (t : TsvFile) : DataFrame :=
  ⟨t.header, t.data.map (fun r => r.map some)⟩

/-- Value of column `c` in a row, pairing column names with cells
positionally (first occurrence wins); `none` when the column is absent
or the row is too short. -/
def lookupCell : List String → List (Option String) → String → Option String
  | [], _, _ => none
  | _ :: _, [], _ => none
  | c0 :: cs, v :: vs, c => if c0 = c then v else lookupCell cs vs c

/-- Overwrite the cell of an existing column `c` in a row. -/
def overwriteCell : List String → List (Option String) → String → Option String →
    List (Option String)
  | [], r, _, _ => r
  | _ :: _, [], _, _ => []
  | c0 :: cs, v :: vs, c, w =>
    if c0 = c then w :: vs else v :: overwriteCell cs vs c w

/-- `df[name] = value` with a scalar value: overwrite the column when it
exists, otherwise append it at the end with the value in every row. -/
def DataFrame.setCol (df : DataFrame) (name : String) (v : Option String) : DataFrame :=
  if df.cols.contains name then
    ⟨df.cols, df.rows.map (fun r => overwriteCell df.cols r name v)⟩
  else
    ⟨df.cols ++ [name], df.rows.map (fun r => r ++ [v])⟩

/-- Column alignment of `pd.concat`: the union of the frames' columns in
first-appearance order. -/
def unionCols (dfs : List DataFrame) : List String :=
  dfs.foldl (fun acc df => acc ++ df.cols.filter (fun c => !(acc.contains c))) []

/-- Re-express a row of a source frame over the aligned column list,
filling absent columns with NaN. -/
def reindexRow (srcCols : List String) (r : List (Option String))
    (cols : List String) : List (Option String) :=
  cols.map (fun c => lookupCell srcCols r c)

/-- `pd.concat(dataframes, ignore_index=True)`: align all frames on the
union of their columns and stack the rows in list order. -/
def concatFrames (dfs : List DataFrame) : DataFrame :=
  let cols := unionCols dfs
  ⟨cols, (dfs.map (fun df => df.rows.map (fun r => reindexRow df.cols r cols))).flatten⟩

/-- Column names after dropping the first occurrence of `c`. -/
def dropColNames : List String → String → List String
  | [], _ => []
  | c0 :: cs, c => if c0 = c then cs else c0 :: dropColNames cs c

/-- A row after dropping the cell aligned with the first occurrence of
column `c`. -/
def dropColRow : List String → List (Option String) → String → List (Option String)
  | [], r, _ => r
  | _ :: _, [], _ => []
  | c0 :: cs, v :: vs, c => if c0 = c then vs else v :: dropColRow cs vs c

/-- A DataFrame whose index has been set: the index name, the index
values (one per row), and the remaining columns and rows. -/
structure IndexedFrame where
  indexName : String
  index : List (Option String)
  cols : List String
  rows : List (List (Option String))
deriving DecidableEq, Repr

/-- `df.set_index(c, inplace=True)` followed by `df.index.name = nm`:
the column's values become the index (dropped from the columns), and
the index is renamed; fails (KeyError) when the column is absent. -/
def DataFrame.setIndexNamed (df : DataFrame) (c nm : String) : Option IndexedFrame :=
  if df.cols.contains c then
    some ⟨nm, df.rows.map (fun r => lookupCell df.cols r c),
          dropColNames df.cols c,
          df.rows.map (fun r => dropColRow df.cols r c)⟩
  else none

/-- The transformer's collection loop: for each `file_dict()` entry in
order, glob for a maxCSS file; skip the partition when there is none,
otherwise load the first match and, when the sample id is non-empty,
set a constant `sample_id` column. -/
def collectFrames : List Partition → List DataFrame
  | [] => []
  | p :: rest =>
    match globMaxCSS p.files with
    | [] => collectFrames rest
    | f :: _ =>
      let df := readCsv f.content
      let df := if p.sampleId = "" then df else df.setCol "sample_id" (some p.sampleId)
      df :: collectFrames rest

/-- The body of `gunc_results_directory_format_to_metadata` up to the
construction of the final table: raise when no partition contributed a
frame, otherwise concatenate and set the `genome` column as the index
renamed `id`. -/
def transform (fd : List Partition) : Except String IndexedFrame :=
  let dataframes := collectFrames fd
  if dataframes.isEmpty then
    .error "No GUNC maxCSS results found in the directory format"
  else
    match (concatFrames dataframes).setIndexNamed "genome" "id" with
    | some ifr => .ok ifr
    | none => .error "KeyError: genome"

/-- Modelled from the spec: `qiime2.Metadata` belongs to the host
framework (not part of this repository); the spec describes the
metadata view as "a semantically-typed metadata wrapper over the
identical table (same index name and row count)", so it is modelled as
a wrapper holding the table unchanged. -/
structure Metadata where
  table : IndexedFrame
deriving DecidableEq, Repr

/-- `gunc_results_directory_format_to_metadata`: the transformer,
returning the final table wrapped as Metadata. -/
def gunc_results_directory_format_to_metadata (fd : List Partition) :
    Except String Metadata :=
  (transform fd).map Metadata.mk

/-- Modelled from the spec: the registered raw-DataFrame view
transformer is not under src/ (only its registration test is); the spec
says the two views are "(a) the raw table, (b) a semantically-typed
metadata wrapper over the identical table", so the raw table view is
the same table. -/
def rawTableView (fd : List Partition) : Except String IndexedFrame :=
  transform fd

/-- Modelled from the spec: `GUNCResultsDirectoryFormat` and its
`file_dict()` live in `_format.py`, which is not under src/.  A result
directory is its root path plus the list of per-sample subdirectory
names (empty for the unpartitioned layout). -/
structure ResultDir where
  rootPath : String
  sampleDirs : List String
deriving DecidableEq, Repr

/-- Modelled from the spec: `file_dict()` returns `{"": root}` for the
unpartitioned layout, and otherwise one entry per sample subdirectory,
keyed by the subdirectory name and valued with the joined path. -/
def file_dict (d : ResultDir) : List (String × String) :=
  if d.sampleDirs.isEmpty then [("", d.rootPath)]
  else d.sampleDirs.map (fun s => (s, d.rootPath ++ "/" ++ s))

/-- The 13 columns of a GUNC maxCSS result file, in file order. -/
def standardCols : List String :=
  ["genome", "n_genes_called", "n_genes_mapped", "n_contigs", "taxonomic_level",
   "proportion_genes_retained_in_major_clades", "genes_retained_index",
   "clade_separation_score", "contamination_portion", "n_effective_surplus_clades",
   "mean_hit_identity", "reference_representation_score", "pass.GUNC"]

/-- A maxCSS file as validation guarantees it: the standard header, and
every data row with one cell per column. -/
def validFile (t : TsvFile) : Prop :=
  t.header = standardCols ∧ ∀ r ∈ t.data, r.length = standardCols.length

instance (t : TsvFile) : Decidable (validFile t) := by
  unfold validFile; infer_instance

/-- A validated directory: every file a partition offers to the maxCSS
glob is a valid maxCSS file. -/
def validFD (fd : List Partition) : Prop :=
  ∀ p ∈ fd, ∀ f ∈ p.files, matchesMaxCSS f.name = true → validFile f.content

instance (fd : List Partition) : Decidable (validFD fd) := by
  unfold validFD; infer_instance

/-- The row count the spec promises: the sum, over partitions whose
glob finds a maxCSS file, of the data-row count of the file the
transformer uses. -/
def expectedRows : List Partition → Nat
  | [] => 0
  | p :: rest =>
    (match globMaxCSS p.files with
     | [] => 0
     | f :: _ => f.content.data.length) + expectedRows rest

/-- Column `c` of a TSV file, as the transformer's row model sees it. -/
def TsvFile.col (t : TsvFile) (c : String) : List (Option String) :=
  t.data.map (fun r => lookupCell t.header (r.map some) c)

/-- The `genome` values of the used maxCSS files, in partition order
then file order: the index the spec promises. -/
def genomeColumn : List Partition → List (Option String)
  | [] => []
  | p :: rest =>
    (match globMaxCSS p.files with
     | [] => []
     | f :: _ => f.content.col "genome") ++ genomeColumn rest

/-- The `sample_id` value each output row should carry: its partition's
sample id, replicated once per data row of the used file. -/
def expectedSampleIds : List Partition → List (Option String)
  | [] => []
  | p :: rest =>
    (match globMaxCSS p.files with
     | [] => []
     | f :: _ => f.content.data.map (fun _ => some p.sampleId)) ++ expectedSampleIds rest

/-- Column `c` of the final table. -/
def IndexedFrame.col (t : IndexedFrame) (c : String) : List (Option String) :=
  t.rows.map (fun r => lookupCell t.cols r c)

/-- `file_dict()` keys are all non-empty: the partitioned layout. -/
def partitionedFD (fd : List Partition) : Prop :=
  fd ≠ [] ∧ ∀ p ∈ fd, p.sampleId ≠ ""

instance (fd : List Partition) : Decidable (partitionedFD fd) := by
  unfold partitionedFD; infer_instance

/-- `file_dict()` is the single sentinel entry: the unpartitioned layout. -/
def unpartitionedFD (fd : List Partition) : Prop :=
  fd.map Partition.sampleId = [""]

instance (fd : List Partition) : Decidable (unpartitionedFD fd) := by
  unfold unpartitionedFD; infer_instance

/-! Helper lemmas about the cell and column toolkit. -/

theorem lookupCell_nil_row (C : List String) (c : String) :
    lookupCell C [] c = none := by
  cases C <;> rfl

theorem lookupCell_map (C : List String) (f : String → Option String) (c : String)
    (h : c ∈ C) : lookupCell C (C.map f) c = f c := by
  induction C with
  | nil => cases h
  | cons c0 cs ih =>
    by_cases h0 : c0 = c
    · subst h0; simp [lookupCell, List.map]
    · rcases List.mem_cons.mp h with h | h
      · exact absurd h.symm h0
      · simpa [lookupCell, List.map, h0] using ih h

theorem lookupCell_append_left (C C' : List String) (r r' : List (Option String))
    (c : String) (hc : c ∈ C) (hlen : r.length = C.length) :
    lookupCell (C ++ C') (r ++ r') c = lookupCell C r c := by
  induction C generalizing r with
  | nil => cases hc
  | cons c0 cs ih =>
    cases r with
    | nil => simp at hlen
    | cons v vs =>
      by_cases h0 : c0 = c
      · simp [lookupCell, h0]
      · rcases List.mem_cons.mp hc with hc | hc
        · exact absurd hc.symm h0
        · simpa [lookupCell, h0] using ih vs hc (by simpa using hlen)

theorem lookupCell_append_right (C C' : List String) (r r' : List (Option String))
    (c : String) (hc : c ∉ C) (hlen : r.length = C.length) :
    lookupCell (C ++ C') (r ++ r') c = lookupCell C' r' c := by
  induction C generalizing r with
  | nil =>
    cases r with
    | nil => rfl
    | cons v vs => simp at hlen
  | cons c0 cs ih =>
    cases r with
    | nil => simp at hlen
    | cons v vs =>
      have h0 : c0 ≠ c := fun h => hc (by simp [h])
      have hc' : c ∉ cs := fun h => hc (List.mem_cons_of_mem _ h)
      simpa [lookupCell, h0] using ih vs hc' (by simpa using hlen)

theorem lookupCell_dropCol (C : List String) (r : List (Option String))
    (c c' : String) (h : c' ≠ c) :
    lookupCell (dropColNames C c') (dropColRow C r c') c = lookupCell C r c := by
  induction C generalizing r with
  | nil => simp [dropColNames, dropColRow]
  | cons c0 cs ih =>
    cases r with
    | nil =>
      rw [lookupCell_nil_row]
      by_cases h0 : c0 = c'
      · simp [dropColNames, dropColRow, h0, lookupCell_nil_row]
      · simp [dropColNames, dropColRow, h0, lookupCell, lookupCell_nil_row]
    | cons v vs =>
      by_cases h0 : c0 = c'
      · have hne : c0 ≠ c := h0 ▸ h
        simp [dropColNames, dropColRow, h0, lookupCell, hne, h]
      · by_cases h1 : c0 = c
        · simp [dropColNames, dropColRow, h0, lookupCell, h1, Ne.symm h]
        · simp [dropColNames, dropColRow, h0, lookupCell, h1, ih vs]

theorem mem_foldl_unionCols (dfs : List DataFrame) (acc : List String) (c : String)
    (h : c ∈ acc ∨ ∃ df ∈ dfs, c ∈ df.cols) :
    c ∈ dfs.foldl (fun acc df => acc ++ df.cols.filter (fun x => !(acc.contains x))) acc := by
  induction dfs generalizing acc with
  | nil =>
    rcases h with h | ⟨df, hdf, _⟩
    · exact h
    · cases hdf
  | cons df rest ih =>
    apply ih
    rcases h with h | ⟨df', hdf', hc'⟩
    · exact Or.inl (List.mem_append_left _ h)
    · rcases List.mem_cons.mp hdf' with hdf' | hdf'
      · subst hdf'
        by_cases hacc : c ∈ acc
        · exact Or.inl (List.mem_append_left _ hacc)
        · refine Or.inl (List.mem_append_right _ ?_)
          refine List.mem_filter.mpr ⟨hc', ?_⟩
          simp [List.contains, hacc]
      · exact Or.inr ⟨df', hdf', hc'⟩

theorem mem_unionCols (dfs : List DataFrame) (c : String)
    (h : ∃ df ∈ dfs, c ∈ df.cols) : c ∈ unionCols dfs :=
  mem_foldl_unionCols dfs [] c (Or.inr h)

theorem foldl_unionCols_const (dfs : List DataFrame) (C : List String)
    (h : ∀ df ∈ dfs, df.cols = C) :
    dfs.foldl (fun acc df => acc ++ df.cols.filter (fun x => !(acc.contains x))) C = C := by
  induction dfs with
  | nil => rfl
  | cons df rest ih =>
    have hdf : df.cols = C := h df (List.mem_cons_self _ _)
    have hfil : C.filter (fun x => !(C.contains x)) = [] := by
      rw [List.filter_eq_nil_iff]
      intro a ha
      simp [List.contains, ha]
    rw [List.foldl_cons, hdf, hfil, List.append_nil]
    exact ih (fun d hd => h d (List.mem_cons_of_mem _ hd))

theorem unionCols_const (dfs : List DataFrame) (C : List String)
    (hne : dfs ≠ []) (h : ∀ df ∈ dfs, df.cols = C) : unionCols dfs = C := by
  cases dfs with
  | nil => exact absurd rfl hne
  | cons df rest =>
    have hdf : df.cols = C := h df (List.mem_cons_self _ _)
    have hfil : C.filter (fun x => !(([] : List String).contains x)) = C := by
      rw [List.filter_eq_self]
      intro a _
      simp
    unfold unionCols
    rw [List.foldl_cons, hdf, List.nil_append, hfil]
    exact foldl_unionCols_const rest C (fun d hd => h d (List.mem_cons_of_mem _ hd))

theorem collectFrames_eq_nil_iff (fd : List Partition) :
    collectFrames fd = [] ↔ ∀ p ∈ fd, globMaxCSS p.files = [] := by
  induction fd with
  | nil => simp [collectFrames]
  | cons p rest ih =>
    cases hg : globMaxCSS p.files with
    | nil => simp [collectFrames, hg, ih]
    | cons f fs => simp [collectFrames, hg]

/-- The frame the collection loop builds for partition `p` from a valid
maxCSS file `f`: the file's rows, extended with the constant sample id
when the partition is named. -/
def frameOf (p : Partition) (f : DirEntry) : DataFrame :=
  if p.sampleId = "" then
    ⟨standardCols, f.content.data.map (fun r => r.map some)⟩
  else
    ⟨standardCols ++ ["sample_id"],
     f.content.data.map (fun r => r.map some ++ [some p.sampleId])⟩

/-- The frames the collection loop builds on a valid directory, made
explicit partition by partition. -/
def framesOf : List Partition → List DataFrame
  | [] => []
  | p :: rest =>
    match globMaxCSS p.files with
    | [] => framesOf rest
    | f :: _ => frameOf p f :: framesOf rest

theorem sample_id_not_mem_standardCols : "sample_id" ∉ standardCols := by decide

theorem genome_mem_standardCols : "genome" ∈ standardCols := by decide

theorem validFile_of_glob_head {fd : List Partition} (hv : validFD fd)
    {p : Partition} (hp : p ∈ fd) {f : DirEntry} {fs : List DirEntry}
    (hg : globMaxCSS p.files = f :: fs) : validFile f.content := by
  have hf : f ∈ globMaxCSS p.files := by rw [hg]; exact List.mem_cons_self _ _
  have hf' := List.mem_filter.mp hf
  exact hv p hp f hf'.1 hf'.2

theorem collectFrames_valid (fd : List Partition) (hv : validFD fd) :
    collectFrames fd = framesOf fd := by
  induction fd with
  | nil => rfl
  | cons p rest ih =>
    have hv' : validFD rest := fun q hq => hv q (List.mem_cons_of_mem _ hq)
    cases hg : globMaxCSS p.files with
    | nil => simp [collectFrames, framesOf, hg, ih hv']
    | cons f fs =>
      have hvf : validFile f.content :=
        validFile_of_glob_head hv (List.mem_cons_self _ _) hg
      have hhd : f.content.header = standardCols := hvf.1
      have hread : readCsv f.content =
          ⟨standardCols, f.content.data.map (fun r => r.map some)⟩ := by
        simp [readCsv, hhd]
      by_cases hs : p.sampleId = ""
      · simp [collectFrames, framesOf, hg, hs, ih hv', hread, frameOf]
      · have hnc : standardCols.contains "sample_id" = false := by decide
        simp only [collectFrames, framesOf, hg, hs, if_neg hs, ih hv', hread]
        congr 1
        simp [frameOf, hs, DataFrame.setCol, sample_id_not_mem_standardCols,
          Function.comp]

theorem frameOf_cols_genome (p : Partition) (f : DirEntry) :
    "genome" ∈ (frameOf p f).cols := by
  by_cases hs : p.sampleId = "" <;>
    simp [frameOf, hs, genome_mem_standardCols]

theorem framesOf_cols_genome (fd : List Partition) :
    ∀ df ∈ framesOf fd, "genome" ∈ df.cols := by
  induction fd with
  | nil => intro df hdf; cases hdf
  | cons p rest ih =>
    intro df hdf
    cases hg : globMaxCSS p.files with
    | nil =>
      rw [framesOf, hg] at hdf
      exact ih df hdf
    | cons f fs =>
      rw [framesOf, hg] at hdf
      rcases List.mem_cons.mp hdf with hdf | hdf
      · subst hdf; exact frameOf_cols_genome p f
      · exact ih df hdf

theorem framesOf_ne_nil (fd : List Partition)
    (h : ∃ p ∈ fd, globMaxCSS p.files ≠ []) : framesOf fd ≠ [] := by
  induction fd with
  | nil => rcases h with ⟨p, hp, _⟩; cases hp
  | cons p rest ih =>
    cases hg : globMaxCSS p.files with
    | nil =>
      rcases h with ⟨q, hq, hqg⟩
      rcases List.mem_cons.mp hq with hq | hq
      · subst hq; exact absurd hg hqg
      · rw [framesOf, hg]
        exact ih ⟨q, hq, hqg⟩
    | cons f fs => rw [framesOf, hg]; simp

theorem genome_mem_unionCols_framesOf (fd : List Partition)
    (h : ∃ p ∈ fd, globMaxCSS p.files ≠ []) :
    "genome" ∈ unionCols (framesOf fd) := by
  apply mem_unionCols
  have hnil := framesOf_ne_nil fd h
  cases hfr : framesOf fd with
  | nil => exact absurd hfr hnil
  | cons df dfs =>
    refine ⟨df, List.mem_cons_self _ _, ?_⟩
    exact framesOf_cols_genome fd df (by rw [hfr]; exact List.mem_cons_self _ _)

theorem concatFrames_rows_length (dfs : List DataFrame) :
    (concatFrames dfs).rows.length = (dfs.map (fun df => df.rows.length)).sum := by
  simp only [concatFrames, List.length_flatten, List.map_map]
  congr 1
  apply List.map_congr_left
  intro df _
  simp [Function.comp]

theorem col_of_concat (dfs : List DataFrame) (c : String)
    (h : c ∈ unionCols dfs) :
    (concatFrames dfs).rows.map (fun r => lookupCell (unionCols dfs) r c) =
      (dfs.map (fun df => df.rows.map (fun r => lookupCell df.cols r c))).flatten := by
  simp only [concatFrames, List.map_flatten, List.map_map]
  congr 1
  apply List.map_congr_left
  intro df _
  simp only [Function.comp, List.map_map]
  apply List.map_congr_left
  intro r _
  simp only [reindexRow]
  exact lookupCell_map (unionCols dfs) (fun x => lookupCell df.cols r x) c h

theorem transform_ok (fd : List Partition)
    (hne : collectFrames fd ≠ [])
    (hgen : "genome" ∈ unionCols (collectFrames fd)) :
    transform fd = .ok
      ⟨"id",
       (concatFrames (collectFrames fd)).rows.map
         (fun r => lookupCell (unionCols (collectFrames fd)) r "genome"),
       dropColNames (unionCols (collectFrames fd)) "genome",
       (concatFrames (collectFrames fd)).rows.map
         (fun r => dropColRow (unionCols (collectFrames fd)) r "genome")⟩ := by
  have hisE : (collectFrames fd).isEmpty = false := by
    rw [List.isEmpty_eq_false]; exact hne
  have hcols : (concatFrames (collectFrames fd)).cols = unionCols (collectFrames fd) := rfl
  have hcont : (concatFrames (collectFrames fd)).cols.contains "genome" = true := by
    rw [hcols]
    simp [List.contains, hgen]
  have hcont2 : (unionCols (collectFrames fd)).contains "genome" = true := hcont
  simp only [transform, hisE, Bool.false_eq_true, if_false, DataFrame.setIndexNamed,
    hcont, if_true, hcols]
  simp [hcont2, hgen]

theorem framesOf_rows_length (fd : List Partition) :
    ((framesOf fd).map (fun df => df.rows.length)).sum = expectedRows fd := by
  induction fd with
  | nil => rfl
  | cons p rest ih =>
    cases hg : globMaxCSS p.files with
    | nil => simp [framesOf, expectedRows, hg, ih]
    | cons f fs =>
      have hlen : (frameOf p f).rows.length = f.content.data.length := by
        by_cases hs : p.sampleId = "" <;> simp [frameOf, hs]
      simp [framesOf, expectedRows, hg, ih, hlen]

theorem frameOf_col_genome (p : Partition) (f : DirEntry) (hvf : validFile f.content) :
    (frameOf p f).rows.map (fun r => lookupCell (frameOf p f).cols r "genome") =
      f.content.col "genome" := by
  by_cases hs : p.sampleId = ""
  · simp only [frameOf, if_pos hs, TsvFile.col, hvf.1, List.map_map]
    apply List.map_congr_left
    intro r _
    rfl
  · simp only [frameOf, if_neg hs, TsvFile.col, hvf.1, List.map_map]
    apply List.map_congr_left
    intro r hr
    simp only [Function.comp]
    exact lookupCell_append_left standardCols ["sample_id"] (r.map some)
      [some p.sampleId] "genome" genome_mem_standardCols (by simp [hvf.2 r hr])

theorem genomeColumn_eq_flatten (fd : List Partition) (hv : validFD fd) :
    ((framesOf fd).map
      (fun df => df.rows.map (fun r => lookupCell df.cols r "genome"))).flatten
      = genomeColumn fd := by
  induction fd with
  | nil => rfl
  | cons p rest ih =>
    have hv' : validFD rest := fun q hq => hv q (List.mem_cons_of_mem _ hq)
    cases hg : globMaxCSS p.files with
    | nil => simp [framesOf, genomeColumn, hg, ih hv']
    | cons f fs =>
      have hvf : validFile f.content :=
        validFile_of_glob_head hv (List.mem_cons_self _ _) hg
      simp only [framesOf, genomeColumn, hg, List.map_cons, List.flatten_cons, ih hv']
      rw [frameOf_col_genome p f hvf]

theorem frameOf_col_sample (p : Partition) (f : DirEntry) (hvf : validFile f.content)
    (hs : p.sampleId ≠ "") :
    (frameOf p f).rows.map (fun r => lookupCell (frameOf p f).cols r "sample_id") =
      f.content.data.map (fun _ => some p.sampleId) := by
  simp only [frameOf, if_neg hs, List.map_map]
  apply List.map_congr_left
  intro r hr
  simp only [Function.comp]
  rw [lookupCell_append_right standardCols ["sample_id"] (r.map some)
    [some p.sampleId] "sample_id" sample_id_not_mem_standardCols (by simp [hvf.2 r hr])]
  simp [lookupCell]

theorem sampleIds_eq_flatten (fd : List Partition) (hv : validFD fd)
    (hp : ∀ p ∈ fd, p.sampleId ≠ "") :
    ((framesOf fd).map
      (fun df => df.rows.map (fun r => lookupCell df.cols r "sample_id"))).flatten
      = expectedSampleIds fd := by
  induction fd with
  | nil => rfl
  | cons p rest ih =>
    have hv' : validFD rest := fun q hq => hv q (List.mem_cons_of_mem _ hq)
    have hp' : ∀ q ∈ rest, q.sampleId ≠ "" := fun q hq => hp q (List.mem_cons_of_mem _ hq)
    cases hg : globMaxCSS p.files with
    | nil => simp [framesOf, expectedSampleIds, hg, ih hv' hp']
    | cons f fs =>
      have hvf : validFile f.content :=
        validFile_of_glob_head hv (List.mem_cons_self _ _) hg
      simp only [framesOf, expectedSampleIds, hg, List.map_cons, List.flatten_cons,
        ih hv' hp']
      rw [frameOf_col_sample p f hvf (hp p (List.mem_cons_self _ _))]

theorem framesOf_cols_part (fd : List Partition) (hp : ∀ p ∈ fd, p.sampleId ≠ "") :
    ∀ df ∈ framesOf fd, df.cols = standardCols ++ ["sample_id"] := by
  induction fd with
  | nil => intro df hdf; cases hdf
  | cons p rest ih =>
    have hp' : ∀ q ∈ rest, q.sampleId ≠ "" := fun q hq => hp q (List.mem_cons_of_mem _ hq)
    intro df hdf
    cases hg : globMaxCSS p.files with
    | nil =>
      rw [framesOf, hg] at hdf
      exact ih hp' df hdf
    | cons f fs =>
      rw [framesOf, hg] at hdf
      rcases List.mem_cons.mp hdf with hdf | hdf
      · subst hdf
        simp [frameOf, hp p (List.mem_cons_self _ _)]
      · exact ih hp' df hdf

theorem unpartitioned_shape (fd : List Partition) (h : unpartitionedFD fd) :
    ∃ p, fd = [p] ∧ p.sampleId = "" := by
  unfold unpartitionedFD at h
  cases fd with
  | nil => simp at h
  | cons p rest =>
    simp only [List.map_cons, List.cons.injEq] at h
    obtain ⟨h1, h2⟩ := h
    exact ⟨p, by rw [List.map_eq_nil_iff.mp h2], h1⟩

/-! Shared concrete inputs for witnesses and counterexamples. -/

/-- A data row with the 13 standard cells; the genome id is `g1`. -/
def exRow1 : List String :=
  ["g1", "11", "10", "3", "kingdom", "0.9", "0.8", "0.1", "0.0", "1.0",
   "0.95", "0.7", "True"]

/-- A second data row for the same genome at another taxonomic level. -/
def exRow2 : List String :=
  ["g1", "11", "10", "3", "phylum", "0.9", "0.8", "0.1", "0.0", "1.0",
   "0.95", "0.7", "True"]

/-- A valid maxCSS file with two rows for the same genome id. -/
def exFile : TsvFile := ⟨standardCols, [exRow1, exRow2]⟩

/-- A directory entry whose name matches the maxCSS glob. -/
def exEntry : DirEntry := ⟨"GUNC.progenomes_2.1.maxCSS_level.tsv", exFile⟩

/-- An unpartitioned `file_dict()`: the sentinel empty sample id. -/
def exUnpartFD : List Partition := [⟨"", [exEntry]⟩]

/-- A partitioned `file_dict()` with two samples. -/
def exPartFD : List Partition :=
  [⟨"s1", [exEntry]⟩,
   ⟨"s2", [⟨"GUNC.db.maxCSS_level.tsv", ⟨standardCols, [exRow1]⟩⟩]⟩]

/-- A partitioned directory in which no partition has a maxCSS file. -/
def exNoMaxFD : List Partition :=
  [⟨"s1", [⟨"notes.txt", ⟨[], []⟩⟩]⟩, ⟨"s2", []⟩]

/-- A partitioned directory where sample `s2` lacks a maxCSS file but
`s1` has one. -/
def exSkipFD : List Partition :=
  [⟨"s1", [exEntry]⟩, ⟨"s2", [⟨"notes.txt", ⟨[], []⟩⟩]⟩]

/-- A directory whose only maxCSS file is header-only (zero data rows). -/
def exHeaderOnlyFD : List Partition :=
  [⟨"s1", [⟨"GUNC.db.maxCSS_level.tsv", ⟨standardCols, []⟩⟩]⟩]

/-! The claims. -/

/-- C1: for every validated directory format, the transformer raises an
error if and only if no `file_dict()` partition contains a file matching
the `GUNC.*.maxCSS_level.tsv` pattern; a partition lacking such a file
while another partition has one is silently skipped and causes no
error. -/
theorem C1_error_iff_no_maxcss (fd : List Partition) (hv : validFD fd) :
    (∃ e, transform fd = .error e) ↔ ∀ p ∈ fd, globMaxCSS p.files = [] := by
  constructor
  · rintro ⟨e, he⟩
    by_contra hno
    push_neg at hno
    obtain ⟨p, hp, hpg⟩ := hno
    have hne : collectFrames fd ≠ [] := by
      rw [Ne, collectFrames_eq_nil_iff]
      intro hall
      exact hpg (hall p hp)
    have hgen : "genome" ∈ unionCols (collectFrames fd) := by
      rw [collectFrames_valid fd hv]
      exact genome_mem_unionCols_framesOf fd ⟨p, hp, hpg⟩
    rw [transform_ok fd hne hgen] at he
    cases he
  · intro hall
    have hnil : collectFrames fd = [] := (collectFrames_eq_nil_iff fd).mpr hall
    exact ⟨"No GUNC maxCSS results found in the directory format",
      by simp [transform, hnil]⟩

/-- Witness for C1: on a directory with no maxCSS file in any partition
the transformer errors; on a directory where only one of two partitions
has a maxCSS file it does not. -/
theorem C1_witness :
    (∃ e, transform exNoMaxFD = Except.error e) ∧
    ¬ ∃ e, transform exSkipFD = Except.error e := by
  constructor
  · exact (C1_error_iff_no_maxcss exNoMaxFD (by decide)).mpr (by decide)
  · intro h
    have h2 := (C1_error_iff_no_maxcss exSkipFD (by decide)).mp h
    exact absurd h2 (by decide)

/-- C2: for every validated directory format in which at least one
partition has a maxCSS file, the transformer succeeds and the output
row count equals the sum, over the partitions whose glob finds a maxCSS
file, of the data-row count of the file used; no rows are
deduplicated. -/
theorem C2_row_count (fd : List Partition) (hv : validFD fd)
    (hx : ∃ p ∈ fd, globMaxCSS p.files ≠ []) :
    ∃ t, transform fd = .ok t ∧ t.rows.length = expectedRows fd ∧
      t.index.length = expectedRows fd := by
  have hne : collectFrames fd ≠ [] := by
    rw [Ne, collectFrames_eq_nil_iff]
    intro hall
    obtain ⟨p, hp, hpg⟩ := hx
    exact hpg (hall p hp)
  have hgen : "genome" ∈ unionCols (collectFrames fd) := by
    rw [collectFrames_valid fd hv]
    exact genome_mem_unionCols_framesOf fd hx
  refine ⟨_, transform_ok fd hne hgen, ?_, ?_⟩ <;>
    rw [List.length_map, concatFrames_rows_length, collectFrames_valid fd hv,
      framesOf_rows_length]

/-- Witness for C2: on the two-sample directory the transformer yields
2 + 1 = 3 rows. -/
theorem C2_witness :
    (∃ t, transform exPartFD = Except.ok t ∧ t.rows.length = expectedRows exPartFD ∧
      t.index.length = expectedRows exPartFD) ∧ expectedRows exPartFD = 3 :=
  ⟨C2_row_count exPartFD (by decide) (by decide), by decide⟩

/-- C3: for every successful transformer run the row index holds the
source tables' `genome` column values (in partition order then file
order), the index is named `id`, and the run succeeds even when those
values repeat. -/
theorem C3_index_is_genome (fd : List Partition) (hv : validFD fd)
    (hx : ∃ p ∈ fd, globMaxCSS p.files ≠ []) :
    ∃ t, transform fd = .ok t ∧ t.indexName = "id" ∧ t.index = genomeColumn fd := by
  have hne : collectFrames fd ≠ [] := by
    rw [Ne, collectFrames_eq_nil_iff]
    intro hall
    obtain ⟨p, hp, hpg⟩ := hx
    exact hpg (hall p hp)
  have hgen : "genome" ∈ unionCols (collectFrames fd) := by
    rw [collectFrames_valid fd hv]
    exact genome_mem_unionCols_framesOf fd hx
  refine ⟨_, transform_ok fd hne hgen, rfl, ?_⟩
  rw [col_of_concat (collectFrames fd) "genome" hgen, collectFrames_valid fd hv,
    genomeColumn_eq_flatten fd hv]

/-- Witness for C3: the single maxCSS file lists genome `g1` at two
taxonomic levels, so the index value repeats and the run still
succeeds. -/
theorem C3_witness :
    (∃ t, transform exUnpartFD = Except.ok t ∧ t.indexName = "id" ∧
      t.index = genomeColumn exUnpartFD) ∧
    genomeColumn exUnpartFD = [some "g1", some "g1"] :=
  ⟨C3_index_is_genome exUnpartFD (by decide) (by decide), by decide⟩

theorem unionCols_part (fd : List Partition) (hv : validFD fd)
    (hp : ∀ p ∈ fd, p.sampleId ≠ "")
    (hx : ∃ p ∈ fd, globMaxCSS p.files ≠ []) :
    unionCols (collectFrames fd) = standardCols ++ ["sample_id"] := by
  rw [collectFrames_valid fd hv]
  exact unionCols_const _ _ (framesOf_ne_nil fd hx) (framesOf_cols_part fd hp)

theorem unionCols_unpart (fd : List Partition) (hv : validFD fd)
    (hu : unpartitionedFD fd)
    (hx : ∃ p ∈ fd, globMaxCSS p.files ≠ []) :
    unionCols (collectFrames fd) = standardCols := by
  obtain ⟨p, hfd, hps⟩ := unpartitioned_shape fd hu
  subst hfd
  obtain ⟨q, hq, hqg⟩ := hx
  rcases List.mem_cons.mp hq with hq | hq
  · subst hq
    cases hg : globMaxCSS q.files with
    | nil => exact absurd hg hqg
    | cons f fs =>
      rw [collectFrames_valid _ hv]
      have hfr : framesOf [q] = [frameOf q f] := by simp [framesOf, hg]
      rw [hfr]
      apply unionCols_const _ _ (by simp)
      intro df hdf
      rcases List.mem_cons.mp hdf with hdf | hdf
      · subst hdf
        simp [frameOf, hps]
      · cases hdf
  · cases hq

/-- C4: for every successful transformer run on a well-formed
`file_dict()` (either the single sentinel entry or non-empty sample
ids), the output has a `sample_id` column if and only if the source was
partitioned, and in the partitioned case every row carries its
partition's sample id as the `sample_id` value. -/
theorem C4_sample_id_column (fd : List Partition) (hv : validFD fd)
    (hx : ∃ p ∈ fd, globMaxCSS p.files ≠ [])
    (hwf : partitionedFD fd ∨ unpartitionedFD fd) :
    ∃ t, transform fd = .ok t ∧
      ("sample_id" ∈ t.cols ↔ partitionedFD fd) ∧
      (partitionedFD fd → t.col "sample_id" = expectedSampleIds fd) := by
  have hne : collectFrames fd ≠ [] := by
    rw [Ne, collectFrames_eq_nil_iff]
    intro hall
    obtain ⟨p, hp, hpg⟩ := hx
    exact hpg (hall p hp)
  have hgen : "genome" ∈ unionCols (collectFrames fd) := by
    rw [collectFrames_valid fd hv]
    exact genome_mem_unionCols_framesOf fd hx
  refine ⟨_, transform_ok fd hne hgen, ?_, ?_⟩
  · rcases hwf with hp | hu
    · rw [unionCols_part fd hv hp.2 hx]
      exact iff_of_true
        (show "sample_id" ∈ dropColNames (standardCols ++ ["sample_id"]) "genome"
          by decide) hp
    · rw [unionCols_unpart fd hv hu hx]
      refine iff_of_false
        (show "sample_id" ∉ dropColNames standardCols "genome" by decide) ?_
      obtain ⟨p, hfd, hps⟩ := unpartitioned_shape fd hu
      intro hpart
      exact hpart.2 p (by rw [hfd]; exact List.mem_cons_self _ _) hps
  · intro hp
    have hU := unionCols_part fd hv hp.2 hx
    have hsmem : "sample_id" ∈ unionCols (collectFrames fd) := by
      rw [hU]; decide
    simp only [IndexedFrame.col, List.map_map]
    have h1 : ((fun r => lookupCell (dropColNames (unionCols (collectFrames fd)) "genome")
          r "sample_id") ∘
        (fun r => dropColRow (unionCols (collectFrames fd)) r "genome"))
        = fun r => lookupCell (unionCols (collectFrames fd)) r "sample_id" := by
      funext r
      exact lookupCell_dropCol (unionCols (collectFrames fd)) r "sample_id" "genome"
        (by decide)
    rw [h1, col_of_concat (collectFrames fd) "sample_id" hsmem,
      collectFrames_valid fd hv, sampleIds_eq_flatten fd hv hp.2]

/-- Witness for C4: on the two-sample directory the `sample_id` column
is present and reads `s1, s1, s2`, matching row provenance. -/
theorem C4_witness :
    (∃ t, transform exPartFD = Except.ok t ∧
      ("sample_id" ∈ t.cols ↔ partitionedFD exPartFD) ∧
      (partitionedFD exPartFD → t.col "sample_id" = expectedSampleIds exPartFD)) ∧
    expectedSampleIds exPartFD = [some "s1", some "s1", some "s2"] :=
  ⟨C4_sample_id_column exPartFD (by decide) (by decide) (Or.inl (by decide)), by decide⟩

/-- C5 counterexample: on a valid unpartitioned directory whose maxCSS
file has exactly the 13 standard columns, the output columns are NOT the
source columns — `set_index('genome')` drops `genome` from the columns
and moves it to the index, so only 12 of the 13 source columns remain. -/
theorem C5_counterexample :
    (transform exUnpartFD).map IndexedFrame.cols ≠
      Except.ok standardCols ∧
    (transform exUnpartFD).map IndexedFrame.cols =
      Except.ok (dropColNames standardCols "genome") := by
  refine ⟨?_, by rfl⟩
  intro h
  rw [show (transform exUnpartFD).map IndexedFrame.cols =
      Except.ok (dropColNames standardCols "genome") from rfl] at h
  have h2 : dropColNames standardCols "genome" = standardCols := by
    injection h
  exact absurd h2 (by decide)

/-- C5 (amended): for every successful transformer run on a validated
directory, the output columns are exactly the source TSV columns with
`genome` removed (it becomes the index), plus the `sample_id` column
exactly in the partitioned case. -/
theorem C5_columns (fd : List Partition) (hv : validFD fd)
    (hx : ∃ p ∈ fd, globMaxCSS p.files ≠ []) :
    ∃ t, transform fd = .ok t ∧
      (unpartitionedFD fd → t.cols = dropColNames standardCols "genome") ∧
      (partitionedFD fd →
        t.cols = dropColNames standardCols "genome" ++ ["sample_id"]) := by
  have hne : collectFrames fd ≠ [] := by
    rw [Ne, collectFrames_eq_nil_iff]
    intro hall
    obtain ⟨p, hp, hpg⟩ := hx
    exact hpg (hall p hp)
  have hgen : "genome" ∈ unionCols (collectFrames fd) := by
    rw [collectFrames_valid fd hv]
    exact genome_mem_unionCols_framesOf fd hx
  refine ⟨_, transform_ok fd hne hgen, ?_, ?_⟩
  · intro hu
    rw [unionCols_unpart fd hv hu hx]
  · intro hp
    rw [unionCols_part fd hv hp.2 hx]
    show dropColNames (standardCols ++ ["sample_id"]) "genome"
      = dropColNames standardCols "genome" ++ ["sample_id"]
    decide

/-- Witness for C5 (amended): the two-sample directory yields the 12
remaining source columns followed by `sample_id`. -/
theorem C5_witness :
    ∃ t, transform exPartFD = Except.ok t ∧
      (unpartitionedFD exPartFD → t.cols = dropColNames standardCols "genome") ∧
      (partitionedFD exPartFD →
        t.cols = dropColNames standardCols "genome" ++ ["sample_id"]) :=
  C5_columns exPartFD (by decide) (by decide)

/-- An unpartitioned results directory path. -/
def exDirFlat : ResultDir := ⟨"/data/results", []⟩

/-- A per-sample results directory with two sample subdirectories. -/
def exDirSamples : ResultDir := ⟨"/data/results", ["SRR9640343", "SRR9640344"]⟩

/-- C6: `file_dict()` on an unpartitioned directory is exactly the
single sentinel entry mapping the empty string to the root path; on a
directory with N sample subdirectories it has exactly N entries keyed
by subdirectory name whose values are the joined subdirectory paths. -/
theorem C6_file_dict_shape (d : ResultDir) :
    (d.sampleDirs = [] → file_dict d = [("", d.rootPath)]) ∧
    (d.sampleDirs ≠ [] →
      (file_dict d).length = d.sampleDirs.length ∧
      (file_dict d).map Prod.fst = d.sampleDirs ∧
      (file_dict d).map Prod.snd = d.sampleDirs.map (fun s => d.rootPath ++ "/" ++ s)) := by
  constructor
  · intro h
    simp [file_dict, h]
  · intro h
    have hne : d.sampleDirs.isEmpty = false := by
      rw [List.isEmpty_eq_false]; exact h
    simp only [file_dict, hne, Bool.false_eq_true, if_false, List.length_map,
      List.map_map]
    refine ⟨trivial, ?_, ?_⟩
    · have h1 : List.map (Prod.fst ∘ fun s => (s, d.rootPath ++ "/" ++ s)) d.sampleDirs
          = List.map id d.sampleDirs := List.map_congr_left (fun s _ => rfl)
      rw [h1, List.map_id]
    · exact List.map_congr_left (fun s _ => rfl)

/-- Witness for C6: the flat directory yields the sentinel entry, the
two-sample directory yields two entries with joined paths. -/
theorem C6_witness :
    file_dict exDirFlat = [("", "/data/results")] ∧
    ((file_dict exDirSamples).length = exDirSamples.sampleDirs.length ∧
     (file_dict exDirSamples).map Prod.fst = exDirSamples.sampleDirs ∧
     (file_dict exDirSamples).map Prod.snd =
       exDirSamples.sampleDirs.map (fun s => exDirSamples.rootPath ++ "/" ++ s)) :=
  ⟨(C6_file_dict_shape exDirFlat).1 rfl,
   (C6_file_dict_shape exDirSamples).2 (by decide)⟩

/-- C7: the metadata view and the raw table view of the same validated
directory are equivalent: the metadata wrapper holds the identical
table, so both have index name `id` and the same row count. -/
theorem C7_views_equiv (fd : List Partition) (hv : validFD fd)
    (hx : ∃ p ∈ fd, globMaxCSS p.files ≠ []) :
    ∃ t m, rawTableView fd = .ok t ∧
      gunc_results_directory_format_to_metadata fd = .ok m ∧
      m.table = t ∧ t.indexName = "id" ∧ m.table.indexName = "id" ∧
      m.table.rows.length = t.rows.length := by
  have hne : collectFrames fd ≠ [] := by
    rw [Ne, collectFrames_eq_nil_iff]
    intro hall
    obtain ⟨p, hp, hpg⟩ := hx
    exact hpg (hall p hp)
  have hgen : "genome" ∈ unionCols (collectFrames fd) := by
    rw [collectFrames_valid fd hv]
    exact genome_mem_unionCols_framesOf fd hx
  refine ⟨_, Metadata.mk _, transform_ok fd hne hgen, ?_, rfl, rfl, rfl, rfl⟩
  show (transform fd).map Metadata.mk = _
  rw [transform_ok fd hne hgen]
  rfl

/-- Witness for C7 at the unpartitioned example directory. -/
theorem C7_witness :
    ∃ t m, rawTableView exUnpartFD = Except.ok t ∧
      gunc_results_directory_format_to_metadata exUnpartFD = Except.ok m ∧
      m.table = t ∧ t.indexName = "id" ∧ m.table.indexName = "id" ∧
      m.table.rows.length = t.rows.length :=
  C7_views_equiv exUnpartFD (by decide) (by decide)

/-- C8: the transformer is a deterministic function of its input: two
runs on the same unchanged directory yield tables with identical
columns, rows, index values and index name. -/
theorem C8_deterministic (fd : List Partition) (t₁ t₂ : IndexedFrame)
    (h₁ : transform fd = .ok t₁) (h₂ : transform fd = .ok t₂) :
    t₁.cols = t₂.cols ∧ t₁.rows = t₂.rows ∧ t₁.index = t₂.index ∧
      t₁.indexName = t₂.indexName := by
  rw [h₁] at h₂
  cases h₂
  exact ⟨rfl, rfl, rfl, rfl⟩

/-- A one-column maxCSS file, small enough to state the transformer's
output literally. -/
def exTinyFD : List Partition :=
  [⟨"", [⟨"GUNC.w.maxCSS_level.tsv", ⟨["genome"], [["g"]]⟩⟩]⟩]

/-- The table `transform` produces on `exTinyFD`. -/
def exTinyOut : IndexedFrame := ⟨"id", [some "g"], [], [[]]⟩

/-- Witness for C8: two runs on the tiny directory produce the one
concrete table. -/
theorem C8_witness :
    exTinyOut.cols = exTinyOut.cols ∧ exTinyOut.rows = exTinyOut.rows ∧
    exTinyOut.index = exTinyOut.index ∧ exTinyOut.indexName = exTinyOut.indexName :=
  C8_deterministic exTinyFD exTinyOut exTinyOut (by rfl) (by rfl)

/-- A partition reduced to the single file the transformer actually
uses: the first maxCSS glob match, when there is one. -/
def keepFirstMaxCSS (p : Partition) : Partition :=
  ⟨p.sampleId, (globMaxCSS p.files).take 1⟩

theorem globMaxCSS_keepFirst (p : Partition) :
    globMaxCSS (keepFirstMaxCSS p).files = (globMaxCSS p.files).take 1 := by
  unfold keepFirstMaxCSS globMaxCSS
  apply List.filter_eq_self.mpr
  intro a ha
  exact (List.mem_filter.mp (List.mem_of_mem_take ha)).2

/-- C9: the transformer loads only the first glob match of each
partition and silently ignores every other matching file: discarding
all but the first match of every partition leaves the output
unchanged. -/
theorem C9_first_match_only (fd : List Partition) :
    transform fd = transform (fd.map keepFirstMaxCSS) := by
  have h : collectFrames fd = collectFrames (fd.map keepFirstMaxCSS) := by
    induction fd with
    | nil => rfl
    | cons p rest ih =>
      cases hg : globMaxCSS p.files with
      | nil => simp [collectFrames, globMaxCSS_keepFirst, hg, ih]
      | cons f fs =>
        have hf : matchesMaxCSS f.name = true := by
          have hmem : f ∈ globMaxCSS p.files := by
            rw [hg]; exact List.mem_cons_self _ _
          exact (List.mem_filter.mp hmem).2
        have h1 : globMaxCSS [f] = [f] := by simp [globMaxCSS, hf]
        simp [collectFrames, globMaxCSS_keepFirst, hg, ih, keepFirstMaxCSS, h1]
  simp only [transform, h]

theorem expectedRows_zero (fd : List Partition)
    (hall : ∀ p ∈ fd, ∃ f fs, globMaxCSS p.files = f :: fs ∧ f.content.data = []) :
    expectedRows fd = 0 := by
  induction fd with
  | nil => rfl
  | cons p rest ih =>
    obtain ⟨f, fs, hg, hd⟩ := hall p (List.mem_cons_self _ _)
    have hrest := ih (fun q hq => hall q (List.mem_cons_of_mem _ hq))
    simp [expectedRows, hg, hd, hrest]

/-- C10: when every partition has a maxCSS file but all of those files
are header-only, the transformer does not raise the empty-result error —
the error is triggered by absent files, not by an empty combined table —
and yields a zero-row table. -/
theorem C10_header_only_ok (fd : List Partition) (hv : validFD fd)
    (hfd : fd ≠ [])
    (hall : ∀ p ∈ fd, ∃ f fs, globMaxCSS p.files = f :: fs ∧ f.content.data = []) :
    ∃ t, transform fd = .ok t ∧ t.rows = [] ∧ t.index = [] := by
  have hx : ∃ p ∈ fd, globMaxCSS p.files ≠ [] := by
    cases fd with
    | nil => exact absurd rfl hfd
    | cons p rest =>
      obtain ⟨f, fs, hg, _⟩ := hall p (List.mem_cons_self _ _)
      exact ⟨p, List.mem_cons_self _ _, by rw [hg]; simp⟩
  have hne : collectFrames fd ≠ [] := by
    rw [Ne, collectFrames_eq_nil_iff]
    intro hall2
    obtain ⟨p, hp, hpg⟩ := hx
    exact hpg (hall2 p hp)
  have hgen : "genome" ∈ unionCols (collectFrames fd) := by
    rw [collectFrames_valid fd hv]
    exact genome_mem_unionCols_framesOf fd hx
  refine ⟨_, transform_ok fd hne hgen, ?_, ?_⟩ <;>
  · rw [← List.length_eq_zero, List.length_map, concatFrames_rows_length,
      collectFrames_valid fd hv, framesOf_rows_length, expectedRows_zero fd hall]

/-- Witness for C10: the single-sample directory with a header-only
maxCSS file transforms to a zero-row table rather than an error. -/
theorem C10_witness :
    ∃ t, transform exHeaderOnlyFD = Except.ok t ∧ t.rows = [] ∧ t.index = [] :=
  C10_header_only_ok exHeaderOnlyFD (by decide) (by decide) (by
    intro p hp
    rcases List.mem_cons.mp hp with h | h
    · subst h
      exact ⟨⟨"GUNC.db.maxCSS_level.tsv", ⟨standardCols, []⟩⟩, [], by decide, rfl⟩
    · cases h)

end Q2Gunc
